import Mathlib

/-!
Verification of the Go-documentation parsing core in `src/core/parser/go.py`.

The embedding works over `List Char` (Python `str`).  Only the pure parsing
core is modelled: the dataclasses `GoFunction`, `GoType`, `GoPackage`, the
scan `_parse_doc_output`, the extractors `_parse_function` and `_parse_type`,
and `format_for_embedding`.  Subprocess orchestration (`parse_package`,
`parse_repository`, `_run_go_doc`, `_get_package_info`) is out of scope per
the specification; the externally supplied metadata enters through the
`GoPackage` constructor.

The regular expressions of the source are embedded as deterministic
functions.  Each pattern used by the code is deterministic in the sense that
Python's backtracking engine can produce at most one decomposition; this is
argued pattern by pattern in the comments below.  Python's `\s`, `\w` and
`str.strip` act on Unicode classes; the embedding restricts them to their
ASCII parts, which is exact on the ASCII documentation text the parser
consumes.  Lines handed to the extractors never contain a newline character
(the scan splits on them first), so the embedding of `.` and `$` coincides
with Python's on every string actually parsed.
-/

/-- Python dataclass `GoFunction` of go.py (strings as `List Char`). -/
structure GoFunction where
  name : List Char
  signature : List Char
  description : List Char
  receiver : List Char
  params : List Char
  returns : List Char
  package : List Char
deriving DecidableEq

/-- Python dataclass `GoType` of go.py. -/
structure GoType where
  name : List Char
  kind : List Char
  description : List Char
  fields : List (List Char)
  methods : List (List Char)
  package : List Char
deriving DecidableEq

/-- Python dataclass `GoPackage` of go.py (the Package Assembler's record). -/
structure GoPackage where
  name : List Char
  import_path : List Char
  functions : List GoFunction
  types : List GoType
  description : List Char
deriving DecidableEq

/-- The ASCII part of Python's whitespace class `\s` (also used by `strip`). -/
def isPySpace (c : Char) : Bool :=
  c == ' ' || c == '\t' || c == '\n' || c == '\r' || c == '\x0b' || c == '\x0c'

/-- The regex class `[A-Z]`. -/
def isUpperL (c : Char) : Bool := 'A' ≤ c && c ≤ 'Z'

/-- The ASCII part of the regex class `\w`. -/
def isWordCharL (c : Char) : Bool :=
  ('A' ≤ c && c ≤ 'Z') || ('a' ≤ c && c ≤ 'z') || ('0' ≤ c && c ≤ '9') || c == '_'

/-- The regex class `[^)]`. -/
def notRParen (c : Char) : Bool := c != ')'

/-- Longest prefix of characters satisfying `p` (a greedy `p*` / `p+` step). -/
def takeW (p : Char → Bool) : List Char → List Char
  | [] => []
  | c :: cs => if p c then c :: takeW p cs else []

/-- Remainder after the longest prefix satisfying `p`. -/
def dropW (p : Char → Bool) : List Char → List Char
  | [] => []
  | c :: cs => if p c then dropW p cs else c :: cs

/-- Python `s.startswith(pat)` (first argument is the pattern). -/
def startsWithL : List Char → List Char → Bool
  | [], _ => true
  | _ :: _, [] => false
  | p :: ps, c :: cs => if c = p then startsWithL ps cs else false

/-- Anchored literal match: if `s = pat ++ r`, return `some r`. -/
def dropPrefixL : List Char → List Char → Option (List Char)
  | [], s => some s
  | _ :: _, [] => none
  | p :: ps, c :: cs => if c = p then dropPrefixL ps cs else none

/-- Python `s.rstrip()` restricted to ASCII whitespace. -/
def rstripChars (s : List Char) : List Char :=
  (dropW isPySpace s.reverse).reverse

/-- Python `s.strip()` restricted to ASCII whitespace. -/
def stripChars (s : List Char) : List Char :=
  (dropW isPySpace (dropW isPySpace s).reverse).reverse

/-- Python `s.split("\n")`: `output.split("\n")` of `_parse_doc_output`. -/
def splitLines : List Char → List (List Char)
  | [] => [[]]
  | c :: rest =>
    if c = '\n' then [] :: splitLines rest
    else
      match splitLines rest with
      | [] => [[c]]
      | l :: ls => (c :: l) :: ls

/-- Python `sep in s` for a non-empty separator `sep`. -/
def containsSeq (sep : List Char) : List Char → Bool
  | [] => sep.isEmpty
  | c :: rest => startsWithL sep (c :: rest) || containsSeq sep rest

/-- Python `s.split("    ")` (the four-space separator used for the inline
description heuristic of `_parse_function`): non-overlapping occurrences
scanned left to right. -/
def splitFour : List Char → List (List Char)
  | ' ' :: ' ' :: ' ' :: ' ' :: rest => [] :: splitFour rest
  | c :: rest =>
    match splitFour rest with
    | [] => [[c]]
    | l :: ls => (c :: l) :: ls
  | [] => [[]]

/-- Python `line.replace("package ", "")` (all occurrences, left to right). -/
def replacePkg : List Char → List Char
  | 'p' :: 'a' :: 'c' :: 'k' :: 'a' :: 'g' :: 'e' :: ' ' :: rest => replacePkg rest
  | c :: rest => c :: replacePkg rest
  | [] => []

/-- `line.replace("package ", "").split(" ")[0]` of `_parse_doc_output`. -/
def pkgNameOf (line : List Char) : List Char :=
  takeW (fun c => c != ' ') (replacePkg line)

def funcL : List Char := ['f', 'u', 'n', 'c']
def typeL : List Char := ['t', 'y', 'p', 'e']
def structL : List Char := ['s', 't', 'r', 'u', 'c', 't']
def interfaceL : List Char := ['i', 'n', 't', 'e', 'r', 'f', 'a', 'c', 'e']
def pkgHeaderL : List Char := ['p', 'a', 'c', 'k', 'a', 'g', 'e', ' ']
def constantsL : List Char := ['C', 'O', 'N', 'S', 'T', 'A', 'N', 'T', 'S']
def variablesL : List Char := ['V', 'A', 'R', 'I', 'A', 'B', 'L', 'E', 'S']
def tenSpacesL : List Char := [' ', ' ', ' ', ' ', ' ', ' ', ' ', ' ', ' ', ' ']

/-- The part `\s+([A-Z]\w+)\s*(\([^)]*\))?\s*(.*)$` of the function pattern
of `_parse_function`, applied after `func` and the optional receiver group.
Returns `(name, params group, tail)`.  All quantifiers here are greedy and,
as the following analysis shows, admit at most one decomposition:
`\s+` must take the whole whitespace run (what follows must not be
whitespace), `\w+` takes the maximal word run (the rest of the pattern
accepts anything), `\([^)]*\)` extends exactly to the first `)` if one
exists, and if the parenthesis group cannot close, the optional group is
skipped and `(.*)` takes over at the first non-whitespace position. -/
def matchAfterFunc (s : List Char) :
    Option (List Char × Option (List Char) × List Char) :=
  if takeW isPySpace s = [] then none
  else
    match dropW isPySpace s with
    | [] => none
    | c :: r2 =>
      if isUpperL c then
        if takeW isWordCharL r2 = [] then none
        else
          let nm := c :: takeW isWordCharL r2
          let r4 := dropW isPySpace (dropW isWordCharL r2)
          match r4 with
          | [] => some (nm, none, r4)
          | d :: r5 =>
            if d = '(' then
              match dropW notRParen r5 with
              | [] => some (nm, none, r4)
              | e :: r7 =>
                if e = ')' then
                  some (nm, some ('(' :: (takeW notRParen r5 ++ [')'])),
                        dropW isPySpace r7)
                else some (nm, none, r4)
            else some (nm, none, r4)
      else none

/-- The optional receiver group `\s+\(([^)]+)\)` of the function pattern.
Returns the receiver text and the remainder of the line after `)`. -/
def tryRecvMatch (rest : List Char) : Option (List Char × List Char) :=
  if takeW isPySpace rest = [] then none
  else
    match dropW isPySpace rest with
    | [] => none
    | d :: r2 =>
      if d = '(' then
        if takeW notRParen r2 = [] then none
        else
          match dropW notRParen r2 with
          | [] => none
          | e :: r4 => if e = ')' then some (takeW notRParen r2, r4) else none
      else none

/-- The full pattern `^func(?:\s+\(([^)]+)\))?\s+([A-Z]\w+)\s*(\([^)]*\))?\s*(.*)$`
of `_parse_function`.  Result groups: (receiver, name, params, tail).
If the receiver group matches but the rest of the pattern fails after it,
the engine backtracks and retries with the group absent; that retry is the
second `matchAfterFunc rest` below. -/
def funcMatch (line : List Char) :
    Option (Option (List Char) × List Char × Option (List Char) × List Char) :=
  match dropPrefixL funcL line with
  | none => none
  | some rest =>
    match tryRecvMatch rest with
    | some (recv, r4) =>
      match matchAfterFunc r4 with
      | some (nm, po, tl) => some (some recv, nm, po, tl)
      | none =>
        match matchAfterFunc rest with
        | some (nm, po, tl) => some (none, nm, po, tl)
        | none => none
    | none =>
      match matchAfterFunc rest with
      | some (nm, po, tl) => some (none, nm, po, tl)
      | none => none

/-- `GoDocParser._parse_function` of go.py. -/
def parse_function (line : List Char) : Option GoFunction :=
  match funcMatch line with
  | none => none
  | some (ro, nm, po, tl) =>
    let receiver := ro.getD []
    let params := po.getD ['(', ')']
    let returns := tl
    let description :=
      if containsSeq [' ', ' ', ' ', ' '] line then
        stripChars ((splitFour line).getLastD [])
      else []
    let signature :=
      funcL ++ (if receiver = [] then [] else ' ' :: '(' :: (receiver ++ [')'])) ++
        ' ' :: (nm ++ params ++ (if returns = [] then [] else ' ' :: returns))
    some (GoFunction.mk nm signature description receiver params returns [])

/-- The pattern `^type\s+([A-Z]\w+)\s+(struct|interface)\s*\{?` of
`_parse_type` (no `$` anchor; the trailing `\s*\{?` always matches, so it
does not constrain acceptance).  Returns (name, kind literal). -/
def typeMatch (line : List Char) : Option (List Char × List Char) :=
  match dropPrefixL typeL line with
  | none => none
  | some rest =>
    if takeW isPySpace rest = [] then none
    else
      match dropW isPySpace rest with
      | [] => none
      | c :: r2 =>
        if isUpperL c then
          if takeW isWordCharL r2 = [] then none
          else
            let r3 := dropW isWordCharL r2
            if takeW isPySpace r3 = [] then none
            else
              let r4 := dropW isPySpace r3
              if startsWithL structL r4 then
                some (c :: takeW isWordCharL r2, structL)
              else if startsWithL interfaceL r4 then
                some (c :: takeW isWordCharL r2, interfaceL)
              else none
        else none

/-- The field pattern `^(\w+)\s+([^\s]+)(?:\s+(.*))?$` of `_parse_type`,
applied to a stripped body line. -/
def fieldMatch (content : List Char) :
    Option (List Char × List Char × Option (List Char)) :=
  if takeW isWordCharL content = [] then none
  else
    let r1 := dropW isWordCharL content
    if takeW isPySpace r1 = [] then none
    else
      let r2 := dropW isPySpace r1
      if takeW (fun c => !(isPySpace c)) r2 = [] then none
      else
        let w2 := takeW (fun c => !(isPySpace c)) r2
        match dropW (fun c => !(isPySpace c)) r2 with
        | [] => some (takeW isWordCharL content, w2, none)
        | r3 => some (takeW isWordCharL content, w2, some (dropW isPySpace r3))

/-- The body-collection loop of `_parse_type`, walking `lines[i:]` with `i`
tracked alongside.  The break test embeds the source line
`if not content.startswith(" ") or content.startswith("\t") is False:`
verbatim (`x is False` on a bool is Boolean negation); since no character
is both a space and a tab, that disjunction is always true, so the loop
body below the break is unreachable — it is still embedded in full. -/
def parseTypeBody (t : GoType) (i : Nat) : List (List Char) → GoType × Nat
  | [] => (t, i)
  | content :: rest =>
    if !(startsWithL [' '] content) || !(startsWithL ['\t'] content) then
      (t, i)
    else
      let c2 := stripChars content
      if c2.isEmpty || startsWithL ['/', '/'] c2 then
        parseTypeBody t (i + 1) rest
      else
        match fieldMatch c2 with
        | some (w1, w2, g3o) =>
          let fieldStr :=
            match g3o with
            | some g3 =>
              if g3 = [] then c2
              else w1 ++ ' ' :: (w2 ++ ' ' :: '/' :: '/' :: ' ' :: g3)
            | none => c2
          parseTypeBody { t with fields := t.fields ++ [fieldStr] } (i + 1) rest
        | none =>
          if startsWithL funcL c2 then
            parseTypeBody { t with methods := t.methods ++ [c2] } (i + 1) rest
          else
            parseTypeBody t (i + 1) rest

/-- `GoDocParser._parse_type` of go.py: on no match it returns the Python
tuple `(None, idx)`; on a match, the record and the first unconsumed index. -/
def parse_type (line : List Char) (lines : List (List Char)) (idx : Nat) :
    Option GoType × Nat :=
  match typeMatch line with
  | none => (none, idx)
  | some (tname, kind) =>
    let res := parseTypeBody (GoType.mk tname kind [] [] [] []) (idx + 1)
      (List.drop (idx + 1) lines)
    (some res.1, res.2)

/-- The `while i < len(lines)` scan of `_parse_doc_output`, with explicit
fuel (the source loop need not terminate: when a line matches nothing, the
always-truthy tuple `(None, idx)` returned by `_parse_type` makes the scan
append `None` to `types` and reset `i` to `idx`, so the trailing `i += 1`
of the source is unreachable and is not part of the semantics). -/
def scanLoop (lines : List (List Char)) :
    Nat → Nat → List GoFunction → List (Option GoType) → List Char →
    Option (List GoFunction × List (Option GoType))
  | 0, _, _, _, _ => none
  | fuel + 1, i, fns, tys, pkg =>
    if h : i < lines.length then
      let cur := rstripChars (lines.get ⟨i, h⟩)
      if startsWithL pkgHeaderL cur then
        scanLoop lines fuel (i + 1) fns tys (pkgNameOf cur)
      else if cur.isEmpty || startsWithL tenSpacesL cur ||
          startsWithL constantsL cur || startsWithL variablesL cur then
        scanLoop lines fuel (i + 1) fns tys pkg
      else
        match parse_function cur with
        | some f => scanLoop lines fuel (i + 1) (fns ++ [f]) tys pkg
        | none =>
          scanLoop lines fuel (parse_type cur lines i).2 fns
            (tys ++ [(parse_type cur lines i).1]) pkg
    else some (fns, tys)

/-- `GoDocParser._parse_doc_output` of go.py, fuelled. -/
def parse_doc_output (fuel : Nat) (output : List Char) :
    Option (List GoFunction × List (Option GoType)) :=
  scanLoop (splitLines output) fuel 0 [] [] []

/-- Python `"\n".join(xs)`. -/
def joinNl : List (List Char) → List Char
  | [] => []
  | [x] => x
  | x :: xs => x ++ '\n' :: joinNl xs

/-- The per-function chunk template of `format_for_embedding`. -/
def funcChunk (pn : List Char) (f : GoFunction) : List Char :=
  stripChars ("\nPackage: ".toList ++ pn ++ "\nFunction: ".toList ++ f.name ++
    "\nSignature: ".toList ++ f.signature ++ "\nDescription: ".toList ++
    f.description ++ "\n".toList)

/-- The per-type chunk template of `format_for_embedding`. -/
def typeChunk (pn : List Char) (t : GoType) : List Char :=
  let fields_str :=
    if t.fields = [] then "  (no exported fields)".toList else joinNl t.fields
  let methods_str := if t.methods = [] then [] else joinNl t.methods
  let base := stripChars ("\nPackage: ".toList ++ pn ++ "\nType: ".toList ++
    t.name ++ "\nKind: ".toList ++ t.kind ++ "\nFields:\n".toList ++
    fields_str ++ "\n".toList)
  if methods_str = [] then base
  else base ++ "\nMethods:\n".toList ++ methods_str

/-- `GoDocParser.format_for_embedding` of go.py. -/
def format_for_embedding (p : GoPackage) : List (List Char) :=
  p.functions.map (funcChunk p.name) ++ p.types.map (typeChunk p.name)

/-- Scenario A input line of the specification. -/
def scenarioALine : List Char :=
  "func (c *Client) Get(key string) (string, error)    returns the stored value".toList

/-- What `_parse_function` actually produces on the Scenario A line. -/
def scenarioARecord : GoFunction :=
  GoFunction.mk ("Get".toList)
    ("func (c *Client) Get(key string) (string, error)    returns the stored value".toList)
    ("returns the stored value".toList)
    ("c *Client".toList)
    ("(key string)".toList)
    ("(string, error)    returns the stored value".toList)
    []

/-- The Scenario B input block of the specification. -/
def scenarioBLines : List (List Char) :=
  ["type Config struct \x7b".toList,
   "\tName string".toList,
   "\tTimeout int // seconds".toList,
   "\x7d".toList]

/-- The record `_parse_doc_output` builds for a lone `type Config struct` line. -/
def cfgType : GoType := GoType.mk ("Config".toList) ("struct".toList) [] [] [] []

/-- The record `_parse_doc_output` builds for the line `func Get(key string)`. -/
def getRecord : GoFunction :=
  GoFunction.mk ("Get".toList) ("func Get(key string)".toList) [] []
    ("(key string)".toList) [] []

/-! ### Basic lemmas about the scanning primitives -/

lemma takeW_mem {p : Char → Bool} : ∀ {l : List Char} {x : Char},
    x ∈ takeW p l → p x = true := by
  intro l
  induction l with
  | nil => intro x hx; simp [takeW] at hx
  | cons c cs ih =>
    intro x hx
    by_cases hc : p c = true
    · rw [takeW, if_pos hc] at hx
      rcases List.mem_cons.mp hx with h1 | h1
      · exact h1 ▸ hc
      · exact ih h1
    · rw [takeW, if_neg hc] at hx
      simp at hx

lemma takeW_app_cons {p : Char → Bool} : ∀ {xs : List Char},
    (∀ x ∈ xs, p x = true) → ∀ {y : Char}, p y = false → ∀ (ys : List Char),
    takeW p (xs ++ y :: ys) = xs := by
  intro xs
  induction xs with
  | nil => intro _ y hy ys; simp [takeW, hy]
  | cons c cs ih =>
    intro hall y hy ys
    have hc : p c = true := hall c (List.mem_cons_self c cs)
    rw [show ((c :: cs) ++ y :: ys) = c :: (cs ++ y :: ys) from rfl, takeW,
      if_pos hc, ih (fun x hx => hall x (List.mem_cons_of_mem _ hx)) hy ys]

lemma dropW_app_cons {p : Char → Bool} : ∀ {xs : List Char},
    (∀ x ∈ xs, p x = true) → ∀ {y : Char}, p y = false → ∀ (ys : List Char),
    dropW p (xs ++ y :: ys) = y :: ys := by
  intro xs
  induction xs with
  | nil => intro _ y hy ys; simp [dropW, hy]
  | cons c cs ih =>
    intro hall y hy ys
    have hc : p c = true := hall c (List.mem_cons_self c cs)
    rw [show ((c :: cs) ++ y :: ys) = c :: (cs ++ y :: ys) from rfl, dropW,
      if_pos hc]
    exact ih (fun x hx => hall x (List.mem_cons_of_mem _ hx)) hy ys

lemma dropW_cons_neg {p : Char → Bool} {c : Char} (h : p c = false)
    (cs : List Char) : dropW p (c :: cs) = c :: cs := by
  simp [dropW, h]

lemma takeW_cons_neg {p : Char → Bool} {c : Char} (h : p c = false)
    (cs : List Char) : takeW p (c :: cs) = [] := by
  simp [takeW, h]

lemma dropPrefixL_self_append : ∀ (p s : List Char), dropPrefixL p (p ++ s) = some s := by
  intro p
  induction p with
  | nil => intro s; rfl
  | cons c cs ih => intro s; simp [dropPrefixL, ih]

lemma dropPrefixL_sound : ∀ {p l r : List Char}, dropPrefixL p l = some r → l = p ++ r := by
  intro p
  induction p with
  | nil => intro l r h; cases h; rfl
  | cons c cs ih =>
    intro l r h
    cases l with
    | nil => exact absurd h (by simp [dropPrefixL])
    | cons d ds =>
      rw [dropPrefixL] at h
      split at h
      · rename_i hdc
        subst hdc
        rw [List.cons_append, ih h]
      · exact absurd h (by simp)

lemma splitLines_no_nl : ∀ {l : List Char}, '\n' ∉ l → splitLines l = [l] := by
  intro l
  induction l with
  | nil => intro _; rfl
  | cons c cs ih =>
    intro h
    have hc : ¬ c = '\n' := fun e => h (e ▸ List.mem_cons_self c cs)
    have hcs : '\n' ∉ cs := fun m => h (List.mem_cons_of_mem _ m)
    rw [splitLines, if_neg hc, ih hcs]

/-! ### Character-class facts -/

lemma isUpperL_not_pySpace {c : Char} (h : isUpperL c = true) : isPySpace c = false := by
  simp only [isUpperL, Bool.and_eq_true, decide_eq_true_eq] at h
  obtain ⟨h1, _⟩ := h
  by_contra hps
  rw [Bool.not_eq_false] at hps
  simp only [isPySpace, Bool.or_eq_true, beq_iff_eq] at hps
  rcases hps with (((((hc | hc) | hc) | hc) | hc) | hc) <;> subst hc <;>
    revert h1 <;> decide

lemma isUpperL_word {c : Char} (h : isUpperL c = true) : isWordCharL c = true := by
  simp only [isUpperL] at h
  simp [isWordCharL, h]

lemma isUpperL_ne_lparen {c : Char} (h : isUpperL c = true) : ¬ c = '(' := by
  intro e
  subst e
  exact absurd h (by decide)

lemma isUpperL_not_word_lparen : isWordCharL '(' = false := by decide

/-! ### The type-body loop of `_parse_type` always breaks immediately -/

lemma typeBody_break (content : List Char) :
    (!(startsWithL [' '] content) || !(startsWithL ['\t'] content)) = true := by
  cases content with
  | nil => rfl
  | cons c cs =>
    by_cases hc : c = ' '
    · subst hc
      simp [startsWithL]
    · simp [startsWithL, hc]

lemma parseTypeBody_id (t : GoType) (i : Nat) :
    ∀ ls, parseTypeBody t i ls = (t, i) := by
  intro ls
  cases ls with
  | nil => rfl
  | cons content rest => simp [parseTypeBody, typeBody_break content]

lemma parse_type_none {line : List Char} (lines : List (List Char)) (idx : Nat)
    (h : typeMatch line = none) : parse_type line lines idx = (none, idx) := by
  simp [parse_type, h]

lemma parse_type_some {line n k : List Char} (lines : List (List Char)) (idx : Nat)
    (h : typeMatch line = some (n, k)) :
    parse_type line lines idx = (some (GoType.mk n k [] [] [] []), idx + 1) := by
  simp [parse_type, h, parseTypeBody_id]

lemma typeMatch_kind {line n k : List Char} (h : typeMatch line = some (n, k)) :
    k = structL ∨ k = interfaceL := by
  simp only [typeMatch] at h
  rcases hdp : dropPrefixL typeL line with _ | rest <;> simp only [hdp] at h
  · exact absurd h (by simp)
  by_cases h1 : takeW isPySpace rest = []
  · rw [if_pos h1] at h
    exact absurd h (by simp)
  rw [if_neg h1] at h
  rcases hdw : dropW isPySpace rest with _ | ⟨c, r2⟩ <;> simp only [hdw] at h
  · exact absurd h (by simp)
  by_cases h2 : isUpperL c = true
  · rw [if_pos h2] at h
    by_cases h3 : takeW isWordCharL r2 = []
    · rw [if_pos h3] at h
      exact absurd h (by simp)
    rw [if_neg h3] at h
    by_cases h4 : takeW isPySpace (dropW isWordCharL r2) = []
    · rw [if_pos h4] at h
      exact absurd h (by simp)
    rw [if_neg h4] at h
    by_cases h5 : startsWithL structL (dropW isPySpace (dropW isWordCharL r2)) = true
    · rw [if_pos h5] at h
      cases h
      exact Or.inl rfl
    rw [if_neg h5] at h
    by_cases h6 : startsWithL interfaceL (dropW isPySpace (dropW isWordCharL r2)) = true
    · rw [if_pos h6] at h
      cases h
      exact Or.inr rfl
    · rw [if_neg h6] at h
      exact absurd h (by simp)
  · rw [if_neg h2] at h
    exact absurd h (by simp)

/-! ### Unfolding and invariants of the scan loop -/

lemma scanLoop_term (lines : List (List Char)) (fuel i : Nat)
    (fns : List GoFunction) (tys : List (Option GoType)) (pkg : List Char)
    (h : ¬ i < lines.length) :
    scanLoop lines (fuel + 1) i fns tys pkg = some (fns, tys) := by
  rw [scanLoop, dif_neg h]

lemma scanLoop_step_func (lines : List (List Char)) (fuel i : Nat)
    (fns : List GoFunction) (tys : List (Option GoType)) (pkg : List Char)
    (h : i < lines.length) (f : GoFunction)
    (hpkg : startsWithL pkgHeaderL (rstripChars (lines.get ⟨i, h⟩)) = false)
    (hskip : ((rstripChars (lines.get ⟨i, h⟩)).isEmpty ||
        startsWithL tenSpacesL (rstripChars (lines.get ⟨i, h⟩)) ||
        startsWithL constantsL (rstripChars (lines.get ⟨i, h⟩)) ||
        startsWithL variablesL (rstripChars (lines.get ⟨i, h⟩))) = false)
    (hfn : parse_function (rstripChars (lines.get ⟨i, h⟩)) = some f) :
    scanLoop lines (fuel + 1) i fns tys pkg =
      scanLoop lines fuel (i + 1) (fns ++ [f]) tys pkg := by
  rw [scanLoop, dif_pos h]
  simp only [hpkg, hskip, hfn, Bool.false_eq_true, if_false]

lemma scanLoop_stuck {lines : List (List Char)} {i : Nat} (h : i < lines.length)
    (hpkg : startsWithL pkgHeaderL (rstripChars (lines.get ⟨i, h⟩)) = false)
    (hskip : ((rstripChars (lines.get ⟨i, h⟩)).isEmpty ||
        startsWithL tenSpacesL (rstripChars (lines.get ⟨i, h⟩)) ||
        startsWithL constantsL (rstripChars (lines.get ⟨i, h⟩)) ||
        startsWithL variablesL (rstripChars (lines.get ⟨i, h⟩))) = false)
    (hfn : parse_function (rstripChars (lines.get ⟨i, h⟩)) = none)
    (htm : typeMatch (rstripChars (lines.get ⟨i, h⟩)) = none) :
    ∀ fuel fns tys pkg, scanLoop lines fuel i fns tys pkg = none := by
  intro fuel
  induction fuel with
  | zero => intro fns tys pkg; rfl
  | succ m ih =>
    intro fns tys pkg
    rw [scanLoop, dif_pos h]
    simp only [hpkg, hskip, hfn, Bool.false_eq_true, if_false,
      parse_type_none lines i htm]
    exact ih fns (tys ++ [none]) pkg

lemma scanLoop_inv (lines : List (List Char)) (R : GoFunction → Prop)
    (Q : Option GoType → Prop)
    (hR : ∀ (l : List Char) (f : GoFunction), parse_function l = some f → R f)
    (hQ : ∀ (l n k : List Char), typeMatch l = some (n, k) →
      Q (some (GoType.mk n k [] [] [] []))) :
    ∀ fuel i fns tys pkg F T, scanLoop lines fuel i fns tys pkg = some (F, T) →
      (∀ f ∈ fns, R f) → (∀ x ∈ tys, Q x) →
      (∀ f ∈ F, R f) ∧ (∀ x ∈ T, Q x) := by
  intro fuel
  induction fuel with
  | zero =>
    intro i fns tys pkg F T h
    exact absurd h (by simp [scanLoop])
  | succ m ih =>
    intro i fns tys pkg F T h hfns htys
    rw [scanLoop] at h
    by_cases hi : i < lines.length
    · rw [dif_pos hi] at h
      by_cases h1 : startsWithL pkgHeaderL (rstripChars (lines.get ⟨i, hi⟩)) = true
      · rw [if_pos h1] at h
        exact ih _ _ _ _ _ _ h hfns htys
      · rw [if_neg h1] at h
        by_cases h2 : ((rstripChars (lines.get ⟨i, hi⟩)).isEmpty ||
            startsWithL tenSpacesL (rstripChars (lines.get ⟨i, hi⟩)) ||
            startsWithL constantsL (rstripChars (lines.get ⟨i, hi⟩)) ||
            startsWithL variablesL (rstripChars (lines.get ⟨i, hi⟩))) = true
        · rw [if_pos h2] at h
          exact ih _ _ _ _ _ _ h hfns htys
        · rw [if_neg h2] at h
          rcases hpf : parse_function (rstripChars (lines.get ⟨i, hi⟩)) with _ | f
          · simp only [hpf] at h
            rcases htm : typeMatch (rstripChars (lines.get ⟨i, hi⟩)) with _ | ⟨nn, kk⟩
            · have h1f : startsWithL pkgHeaderL (rstripChars (lines.get ⟨i, hi⟩)) = false := by
                revert h1
                cases startsWithL pkgHeaderL (rstripChars (lines.get ⟨i, hi⟩)) <;> simp
              have h2f : ((rstripChars (lines.get ⟨i, hi⟩)).isEmpty ||
                  startsWithL tenSpacesL (rstripChars (lines.get ⟨i, hi⟩)) ||
                  startsWithL constantsL (rstripChars (lines.get ⟨i, hi⟩)) ||
                  startsWithL variablesL (rstripChars (lines.get ⟨i, hi⟩))) = false := by
                revert h2
                cases ((rstripChars (lines.get ⟨i, hi⟩)).isEmpty ||
                  startsWithL tenSpacesL (rstripChars (lines.get ⟨i, hi⟩)) ||
                  startsWithL constantsL (rstripChars (lines.get ⟨i, hi⟩)) ||
                  startsWithL variablesL (rstripChars (lines.get ⟨i, hi⟩))) <;> simp
              simp only [parse_type_none lines i htm] at h
              rw [scanLoop_stuck hi h1f h2f hpf htm m fns (tys ++ [none]) pkg] at h
              exact absurd h (by simp)
            · simp only [parse_type_some lines i htm] at h
              refine ih _ _ _ _ _ _ h hfns ?_
              intro x hx
              rcases List.mem_append.mp hx with hx | hx
              · exact htys x hx
              · have hx1 : x = some (GoType.mk nn kk [] [] [] []) := by
                  simpa using hx
                exact hx1 ▸ hQ _ _ _ htm
          · simp only [hpf] at h
            refine ih _ _ _ _ _ _ h ?_ htys
            intro g hg
            rcases List.mem_append.mp hg with hg | hg
            · exact hfns g hg
            · have hg1 : g = f := by simpa using hg
              exact hg1 ▸ hR _ f hpf
    · rw [dif_neg hi] at h
      injection h with h
      injection h with hF hT
      subst hF
      subst hT
      exact ⟨hfns, htys⟩

/-! ### Shape of successful `funcMatch` results -/

lemma matchAfterFunc_shape {s nm : List Char} {po : Option (List Char)}
    {tl : List Char} (h : matchAfterFunc s = some (nm, po, tl)) :
    (∃ c w, nm = c :: w ∧ isUpperL c = true ∧ w ≠ [] ∧
      ∀ x ∈ w, isWordCharL x = true) ∧
    (∀ p, po = some p → ∃ inn, p = '(' :: (inn ++ [')']) ∧
      ∀ x ∈ inn, notRParen x = true) := by
  simp only [matchAfterFunc] at h
  by_cases h1 : takeW isPySpace s = []
  · rw [if_pos h1] at h
    exact absurd h (by simp)
  rw [if_neg h1] at h
  rcases hdw : dropW isPySpace s with _ | ⟨c, r2⟩ <;> simp only [hdw] at h
  · exact absurd h (by simp)
  by_cases h2 : isUpperL c = true
  · rw [if_pos h2] at h
    by_cases h3 : takeW isWordCharL r2 = []
    · rw [if_pos h3] at h
      exact absurd h (by simp)
    rw [if_neg h3] at h
    have hname : ∃ cc w, c :: takeW isWordCharL r2 = cc :: w ∧ isUpperL cc = true ∧
        w ≠ [] ∧ ∀ x ∈ w, isWordCharL x = true :=
      ⟨c, takeW isWordCharL r2, rfl, h2, h3, fun x hx => takeW_mem hx⟩
    rcases hr4 : dropW isPySpace (dropW isWordCharL r2) with _ | ⟨d, r5⟩ <;>
      simp only [hr4] at h
    · simp only [Option.some.injEq, Prod.mk.injEq] at h
      obtain ⟨rfl, rfl, rfl⟩ := h
      exact ⟨hname, fun p hp => absurd hp (by simp)⟩
    by_cases h4 : d = '('
    · rw [if_pos h4] at h
      rcases hd2 : dropW notRParen r5 with _ | ⟨e, r7⟩ <;> simp only [hd2] at h
      · simp only [Option.some.injEq, Prod.mk.injEq] at h
        obtain ⟨rfl, rfl, rfl⟩ := h
        exact ⟨hname, fun p hp => absurd hp (by simp)⟩
      by_cases h5 : e = ')'
      · rw [if_pos h5] at h
        simp only [Option.some.injEq, Prod.mk.injEq] at h
        obtain ⟨rfl, rfl, rfl⟩ := h
        refine ⟨hname, ?_⟩
        intro p hp
        obtain rfl := Option.some.inj hp
        exact ⟨takeW notRParen r5, rfl, fun x hx => takeW_mem hx⟩
      · rw [if_neg h5] at h
        simp only [Option.some.injEq, Prod.mk.injEq] at h
        obtain ⟨rfl, rfl, rfl⟩ := h
        exact ⟨hname, fun p hp => absurd hp (by simp)⟩
    · rw [if_neg h4] at h
      simp only [Option.some.injEq, Prod.mk.injEq] at h
      obtain ⟨rfl, rfl, rfl⟩ := h
      exact ⟨hname, fun p hp => absurd hp (by simp)⟩
  · rw [if_neg h2] at h
    exact absurd h (by simp)

lemma tryRecvMatch_shape {rest recv r4 : List Char}
    (h : tryRecvMatch rest = some (recv, r4)) :
    recv ≠ [] ∧ ∀ x ∈ recv, notRParen x = true := by
  simp only [tryRecvMatch] at h
  by_cases h1 : takeW isPySpace rest = []
  · rw [if_pos h1] at h
    exact absurd h (by simp)
  rw [if_neg h1] at h
  rcases hdw : dropW isPySpace rest with _ | ⟨d, r2⟩ <;> simp only [hdw] at h
  · exact absurd h (by simp)
  by_cases h2 : d = '('
  · rw [if_pos h2] at h
    by_cases h3 : takeW notRParen r2 = []
    · rw [if_pos h3] at h
      exact absurd h (by simp)
    rw [if_neg h3] at h
    rcases hd2 : dropW notRParen r2 with _ | ⟨e, r5⟩ <;> simp only [hd2] at h
    · exact absurd h (by simp)
    by_cases h4 : e = ')'
    · rw [if_pos h4] at h
      simp only [Option.some.injEq, Prod.mk.injEq] at h
      obtain ⟨rfl, rfl⟩ := h
      exact ⟨h3, fun x hx => takeW_mem hx⟩
    · rw [if_neg h4] at h
      exact absurd h (by simp)
  · rw [if_neg h2] at h
    exact absurd h (by simp)

lemma funcMatch_shape {line : List Char} {ro : Option (List Char)} {nm : List Char}
    {po : Option (List Char)} {tl : List Char}
    (h : funcMatch line = some (ro, nm, po, tl)) :
    (∃ rest, line = funcL ++ rest) ∧
    (∃ c w, nm = c :: w ∧ isUpperL c = true ∧ w ≠ [] ∧
      ∀ x ∈ w, isWordCharL x = true) ∧
    (∀ r, ro = some r → r ≠ [] ∧ ∀ x ∈ r, notRParen x = true) ∧
    (∀ p, po = some p → ∃ inn, p = '(' :: (inn ++ [')']) ∧
      ∀ x ∈ inn, notRParen x = true) := by
  simp only [funcMatch] at h
  rcases hdp : dropPrefixL funcL line with _ | rest <;> simp only [hdp] at h
  · exact absurd h (by simp)
  refine ⟨⟨rest, dropPrefixL_sound hdp⟩, ?_⟩
  rcases htr : tryRecvMatch rest with _ | ⟨recv, r4⟩ <;> simp only [htr] at h
  · rcases hma : matchAfterFunc rest with _ | ⟨nm2, po2, tl2⟩ <;> simp only [hma] at h
    · exact absurd h (by simp)
    · simp only [Option.some.injEq, Prod.mk.injEq] at h
      obtain ⟨rfl, rfl, rfl, rfl⟩ := h
      obtain ⟨hname, hpo⟩ := matchAfterFunc_shape hma
      exact ⟨hname, fun r hr => absurd hr (by simp), hpo⟩
  · rcases hma : matchAfterFunc r4 with _ | ⟨nm2, po2, tl2⟩ <;> simp only [hma] at h
    · rcases hma2 : matchAfterFunc rest with _ | ⟨nm3, po3, tl3⟩ <;>
        simp only [hma2] at h
      · exact absurd h (by simp)
      · simp only [Option.some.injEq, Prod.mk.injEq] at h
        obtain ⟨rfl, rfl, rfl, rfl⟩ := h
        obtain ⟨hname, hpo⟩ := matchAfterFunc_shape hma2
        exact ⟨hname, fun r hr => absurd hr (by simp), hpo⟩
    · simp only [Option.some.injEq, Prod.mk.injEq] at h
      obtain ⟨rfl, rfl, rfl, rfl⟩ := h
      obtain ⟨hname, hpo⟩ := matchAfterFunc_shape hma
      obtain ⟨hrne, hrall⟩ := tryRecvMatch_shape htr
      refine ⟨hname, ?_, hpo⟩
      intro r hr
      obtain rfl := Option.some.inj hr
      exact ⟨hrne, hrall⟩

/-! ### Re-parsing a canonically rendered signature -/

lemma matchAfterFunc_canon (c : Char) (w inn rest : List Char)
    (hc : isUpperL c = true) (hw : w ≠ [])
    (hwall : ∀ x ∈ w, isWordCharL x = true)
    (hinn : ∀ x ∈ inn, notRParen x = true) :
    matchAfterFunc (' ' :: c :: (w ++ '(' :: (inn ++ ')' :: rest))) =
      some (c :: w, some ('(' :: (inn ++ [')'])), dropW isPySpace rest) := by
  have e1 : takeW isPySpace (' ' :: c :: (w ++ '(' :: (inn ++ ')' :: rest))) = [' '] := by
    rw [takeW, if_pos (by decide), takeW_cons_neg (isUpperL_not_pySpace hc)]
  have e2 : dropW isPySpace (' ' :: c :: (w ++ '(' :: (inn ++ ')' :: rest))) =
      c :: (w ++ '(' :: (inn ++ ')' :: rest)) := by
    rw [dropW, if_pos (by decide), dropW_cons_neg (isUpperL_not_pySpace hc)]
  have e3 : takeW isWordCharL (w ++ '(' :: (inn ++ ')' :: rest)) = w :=
    takeW_app_cons hwall (by decide) _
  have e4 : dropW isWordCharL (w ++ '(' :: (inn ++ ')' :: rest)) =
      '(' :: (inn ++ ')' :: rest) :=
    dropW_app_cons hwall (by decide) _
  have e5 : dropW isPySpace ('(' :: (inn ++ ')' :: rest)) =
      '(' :: (inn ++ ')' :: rest) :=
    dropW_cons_neg (by decide) _
  have e6 : dropW notRParen (inn ++ ')' :: rest) = ')' :: rest :=
    dropW_app_cons hinn (by decide) _
  have e7 : takeW notRParen (inn ++ ')' :: rest) = inn :=
    takeW_app_cons hinn (by decide) _
  simp [matchAfterFunc, e1, e2, e3, e4, e5, e6, e7, hc, hw]

lemma tryRecvMatch_none_upper {c : Char} (t : List Char) (hc : isUpperL c = true) :
    tryRecvMatch (' ' :: c :: t) = none := by
  have e1 : takeW isPySpace (' ' :: c :: t) = [' '] := by
    rw [takeW, if_pos (by decide), takeW_cons_neg (isUpperL_not_pySpace hc)]
  have e2 : dropW isPySpace (' ' :: c :: t) = c :: t := by
    rw [dropW, if_pos (by decide), dropW_cons_neg (isUpperL_not_pySpace hc)]
  simp [tryRecvMatch, e1, e2, isUpperL_ne_lparen hc]

lemma tryRecvMatch_canon (r rest2 : List Char) (hr : r ≠ [])
    (hrall : ∀ x ∈ r, notRParen x = true) :
    tryRecvMatch (' ' :: '(' :: (r ++ ')' :: rest2)) = some (r, rest2) := by
  have e1 : takeW isPySpace (' ' :: '(' :: (r ++ ')' :: rest2)) = [' '] := by
    rw [takeW, if_pos (by decide), takeW_cons_neg (by decide)]
  have e2 : dropW isPySpace (' ' :: '(' :: (r ++ ')' :: rest2)) =
      '(' :: (r ++ ')' :: rest2) := by
    rw [dropW, if_pos (by decide), dropW_cons_neg (by decide)]
  have e3 : takeW notRParen (r ++ ')' :: rest2) = r :=
    takeW_app_cons hrall (by decide) _
  have e4 : dropW notRParen (r ++ ')' :: rest2) = ')' :: rest2 :=
    dropW_app_cons hrall (by decide) _
  simp [tryRecvMatch, e1, e2, e3, e4, hr]

lemma funcMatch_canon_norecv (c : Char) (w inn ret : List Char)
    (hc : isUpperL c = true) (hw : w ≠ [])
    (hwall : ∀ x ∈ w, isWordCharL x = true)
    (hinn : ∀ x ∈ inn, notRParen x = true) :
    funcMatch (funcL ++ ' ' :: c :: (w ++ '(' :: (inn ++ ')' :: ret))) =
      some (none, c :: w, some ('(' :: (inn ++ [')'])), dropW isPySpace ret) := by
  simp [funcMatch, dropPrefixL_self_append, tryRecvMatch_none_upper _ hc,
    matchAfterFunc_canon c w inn ret hc hw hwall hinn]

lemma funcMatch_canon_recv (r : List Char) (c : Char) (w inn ret : List Char)
    (hr : r ≠ []) (hrall : ∀ x ∈ r, notRParen x = true)
    (hc : isUpperL c = true) (hw : w ≠ [])
    (hwall : ∀ x ∈ w, isWordCharL x = true)
    (hinn : ∀ x ∈ inn, notRParen x = true) :
    funcMatch (funcL ++ ' ' :: '(' ::
        (r ++ ')' :: (' ' :: c :: (w ++ '(' :: (inn ++ ')' :: ret))))) =
      some (some r, c :: w, some ('(' :: (inn ++ [')'])), dropW isPySpace ret) := by
  simp [funcMatch, dropPrefixL_self_append,
    tryRecvMatch_canon r (' ' :: c :: (w ++ '(' :: (inn ++ ')' :: ret))) hr hrall,
    matchAfterFunc_canon c w inn ret hc hw hwall hinn]

lemma parse_function_of_funcMatch {s : List Char} {ro : Option (List Char)}
    {nm : List Char} {po : Option (List Char)} {tl : List Char}
    (hm : funcMatch s = some (ro, nm, po, tl)) :
    ∃ f2, parse_function s = some f2 ∧ f2.name = nm ∧
      f2.receiver = ro.getD [] ∧ f2.params = po.getD ['(', ')'] := by
  simp only [parse_function, hm]
  exact ⟨_, rfl, rfl, rfl, rfl⟩

lemma parse_function_package {s : List Char} {f : GoFunction}
    (h : parse_function s = some f) : f.package = [] := by
  simp only [parse_function] at h
  rcases hm : funcMatch s with _ | ⟨ro, nm, po, tl⟩ <;> simp only [hm] at h
  · exact absurd h (by simp)
  · simp only [Option.some.injEq] at h
    subst h
    rfl

lemma funcline_not_skip (rest : List Char) :
    startsWithL pkgHeaderL (funcL ++ rest) = false ∧
    ((funcL ++ rest).isEmpty || startsWithL tenSpacesL (funcL ++ rest) ||
      startsWithL constantsL (funcL ++ rest) ||
      startsWithL variablesL (funcL ++ rest)) = false := by
  constructor <;>
    simp [funcL, pkgHeaderL, tenSpacesL, constantsL, variablesL, startsWithL]

/-! ### The claims -/

/-- C1: the specification claims the Type Block Extractor consumes the K
indented lines following a type-declaration line and fills `fields`/`methods`
from them (Scenario B: two fields).  The code's break test
`not content.startswith(" ") or content.startswith("\t") is False` is a
tautology, so `_parse_type` consumes no body line at all: on the Scenario B
block it stops at index 1 (the first indented line, not the column-zero
line) and returns a record with `fields = []` and `methods = []`. -/
theorem c1_type_block_consumes_nothing :
    parse_type ("type Config struct \x7b".toList) scenarioBLines 0 =
      (some (GoType.mk ("Config".toList) ("struct".toList) [] [] [] []), 1) := by
  decide

/-- C2: the specification claims the scan always terminates and classifies a
line matching neither grammar as `Skip`.  In the code, `_parse_type` returns
the tuple `(None, idx)` on a non-match, which is truthy, so the scan appends
`None` to `types` and resets the cursor to the same line: on the
documentation text `hello` the loop never terminates (no amount of fuel
makes it return). -/
theorem c2_malformed_line_diverges :
    ∀ fuel, parse_doc_output fuel ("hello".toList) = none := by
  intro fuel
  unfold parse_doc_output
  rw [show splitLines ("hello".toList) = [("hello".toList)] from by decide]
  exact @scanLoop_stuck [("hello".toList)] 0 (by decide) (by decide) (by decide)
    (by decide) (by decide) fuel [] [] []

/-- C3: on the Scenario A line, `_parse_function` does produce
name `Get`, receiver `c *Client`, params `(key string)` and description
`returns the stored value`, but the trailing group `(.*)$` of the pattern
captures everything after the parameter list, so `returns` is
`(string, error)    returns the stored value`, not `(string, error)` as the
claim states.  This theorem is the amended Scenario A. -/
theorem c3_scenarioA_record :
    parse_function scenarioALine = some scenarioARecord := by
  decide

/-- C3 counterexample: the claim's `returns = "(string, error)"` is false on
the code. -/
theorem c3_scenarioA_counterexample :
    (parse_function scenarioALine).map GoFunction.returns ≠
      some ("(string, error)".toList) := by
  decide

/-- C5: a declaration line whose identifier starts with a lowercase letter
produces no FunctionRecord — that much holds (`[A-Z]` rejects `get`) — but
the line is not classified `Skip`: as in C2 the scan appends `None` to
`types` and loops forever on it instead of moving past it. -/
theorem c5_lowercase_no_record_but_diverges :
    parse_function ("func get(key string)".toList) = none ∧
    ∀ fuel, parse_doc_output fuel ("func get(key string)".toList) = none := by
  refine ⟨by decide, ?_⟩
  intro fuel
  unfold parse_doc_output
  rw [show splitLines ("func get(key string)".toList) =
    [("func get(key string)".toList)] from by decide]
  exact @scanLoop_stuck [("func get(key string)".toList)] 0 (by decide) (by decide)
    (by decide) (by decide) (by decide) fuel [] [] []

/-- C8: the empty documentation text is a valid degenerate input: the scan
terminates with no function and no type record, and assembling a
PackageRecord for package `foo` from it gives `name = "foo"`,
`functions = []`, `types = []`. -/
theorem c8_empty_doc_text :
    parse_doc_output 2 [] = some ([], []) ∧
    (GoPackage.mk ("foo".toList) [] [] [] []).name = "foo".toList ∧
    (GoPackage.mk ("foo".toList) [] [] [] []).functions = [] ∧
    (GoPackage.mk ("foo".toList) [] [] [] []).types = [] := by
  exact ⟨by decide, rfl, rfl, rfl⟩

/-- C9: `format_for_embedding` is a pure function of the PackageRecord, so
two calls on the same record produce byte-for-byte identical chunk
sequences. -/
theorem c9_formatter_deterministic (p : GoPackage) :
    format_for_embedding p = format_for_embedding p := rfl

/-- C4: for every line that matches the function grammar (optional
`func (RECEIVER)` prefix, identifier starting with an uppercase ASCII
letter, optional parameter list, optional tail — i.e. `funcMatch` succeeds
on the rstripped line), scanning that line as a documentation text produces
exactly one FunctionRecord, whose `name` is the matched identifier. -/
theorem c4_exported_line_one_record (line : List Char) (ro : Option (List Char))
    (nm : List Char) (po : Option (List Char)) (tl : List Char)
    (hnl : ¬ '\n' ∈ line)
    (hm : funcMatch (rstripChars line) = some (ro, nm, po, tl)) :
    ∃ f : GoFunction, parse_doc_output 2 line = some ([f], []) ∧ f.name = nm := by
  obtain ⟨⟨rest, hrest⟩, -, -, -⟩ := funcMatch_shape hm
  obtain ⟨f, hf, hfn, -, -⟩ := parse_function_of_funcMatch hm
  refine ⟨f, ?_, hfn⟩
  unfold parse_doc_output
  rw [splitLines_no_nl hnl]
  have h0 : (0 : Nat) < ([line] : List (List Char)).length := by simp
  have hpkg : startsWithL pkgHeaderL (rstripChars line) = false := by
    rw [hrest]
    exact (funcline_not_skip rest).1
  have hskip : ((rstripChars line).isEmpty ||
      startsWithL tenSpacesL (rstripChars line) ||
      startsWithL constantsL (rstripChars line) ||
      startsWithL variablesL (rstripChars line)) = false := by
    rw [hrest]
    exact (funcline_not_skip rest).2
  calc scanLoop [line] 2 0 [] [] []
      = scanLoop [line] 1 1 ([] ++ [f]) [] [] :=
        scanLoop_step_func [line] 1 0 [] [] [] h0 f hpkg hskip hf
    _ = some ([f], []) := scanLoop_term [line] 0 1 [f] [] [] (by simp)

/-- C4 witness at the line `func Get(key string)`. -/
theorem c4_witness :
    ∃ f : GoFunction, parse_doc_output 2 ("func Get(key string)".toList) =
      some ([f], []) ∧ f.name = "Get".toList :=
  c4_exported_line_one_record ("func Get(key string)".toList) none ("Get".toList)
    (some ("(key string)".toList)) [] (by decide) (by decide)

/-- C6: every element of the types sequence returned by a terminating scan
is a TypeRecord whose `kind` is the literal `struct` or the literal
`interface` — these literals are the only values `_parse_type` ever writes
into `kind`. -/
theorem c6_types_kind_invariant (output : List Char) (fuel : Nat)
    (F : List GoFunction) (T : List (Option GoType))
    (h : parse_doc_output fuel output = some (F, T)) :
    ∀ x ∈ T, ∃ t : GoType, x = some t ∧
      (t.kind = "struct".toList ∨ t.kind = "interface".toList) := by
  refine (scanLoop_inv (splitLines output) (fun _ => True)
    (fun x => ∃ t : GoType, x = some t ∧
      (t.kind = "struct".toList ∨ t.kind = "interface".toList))
    (fun _ _ _ => trivial) ?_ fuel 0 [] [] [] F T h (by simp) (by simp)).2
  intro l n k htm
  refine ⟨GoType.mk n k [] [] [] [], rfl, ?_⟩
  rcases typeMatch_kind htm with hk | hk
  · exact Or.inl (by rw [hk]; rfl)
  · exact Or.inr (by rw [hk]; rfl)

/-- C6 witness: the scan of `type Config struct` returns one type record,
and its kind is `struct`. -/
theorem c6_witness :
    ∃ t : GoType, (some cfgType : Option GoType) = some t ∧
      (t.kind = "struct".toList ∨ t.kind = "interface".toList) :=
  c6_types_kind_invariant ("type Config struct".toList) 2 [] [some cfgType]
    (by decide) (some cfgType) (by simp)

/-- C10: the `package` field of every GoFunction and every GoType record a
terminating scan returns is the empty string: `_parse_function` and
`_parse_type` construct their records without a package, and the
`current_package` local of the scan is never written into a record. -/
theorem c10_package_never_attached (output : List Char) (fuel : Nat)
    (F : List GoFunction) (T : List (Option GoType))
    (h : parse_doc_output fuel output = some (F, T)) :
    (∀ f ∈ F, f.package = []) ∧
    (∀ x ∈ T, ∀ t : GoType, x = some t → t.package = []) := by
  refine scanLoop_inv (splitLines output) (fun f => f.package = [])
    (fun x => ∀ t : GoType, x = some t → t.package = []) ?_ ?_
    fuel 0 [] [] [] F T h (by simp) (by simp)
  · intro l f hf
    exact parse_function_package hf
  · intro l n k _ t ht
    obtain rfl := Option.some.inj ht
    rfl

/-- C10 witness: the record scanned from `func Get(key string)` has an empty
`package` field. -/
theorem c10_witness : getRecord.package = [] :=
  (c10_package_never_attached ("func Get(key string)".toList) 2 [getRecord] []
    (by decide)).1 getRecord (by simp)

/-- C7: re-parsing the canonical rendered `signature` of any FunctionRecord
produced by `_parse_function` yields a record with identical `name`,
`receiver` and `params`.  (Every component of the rendered signature is
drawn from the input line plus the literals `func`, spaces and parentheses,
so on the newline-free lines the scan feeds the extractor, the rendered
signature is newline-free as well and the embedding coincides with the
source on both parses.) -/
theorem c7_signature_roundtrip (line : List Char) (f : GoFunction)
    (h : parse_function line = some f) :
    ∃ f2 : GoFunction, parse_function f.signature = some f2 ∧
      f2.name = f.name ∧ f2.receiver = f.receiver ∧ f2.params = f.params := by
  simp only [parse_function] at h
  rcases hm : funcMatch line with _ | ⟨ro, nm, po, tl⟩ <;> simp only [hm] at h
  · exact absurd h (by simp)
  simp only [Option.some.injEq] at h
  obtain ⟨-, ⟨c, w, hnm, hc, hw, hwall⟩, hro, hpo⟩ := funcMatch_shape hm
  obtain ⟨inn, hparams, hinn⟩ :
      ∃ inn, po.getD ['(', ')'] = '(' :: (inn ++ [')']) ∧
        ∀ x ∈ inn, notRParen x = true := by
    rcases po with _ | p
    · exact ⟨[], rfl, by simp⟩
    · obtain ⟨inn, hp, hinn⟩ := hpo p rfl
      exact ⟨inn, by simp [hp], hinn⟩
  have hfsig : f.signature =
      funcL ++ (if ro.getD [] = [] then [] else
        ' ' :: '(' :: (ro.getD [] ++ [')'])) ++
      ' ' :: (nm ++ po.getD ['(', ')'] ++ (if tl = [] then [] else ' ' :: tl)) := by
    rw [← h]
  have hfname : f.name = nm := by rw [← h]
  have hfrecv : f.receiver = ro.getD [] := by rw [← h]
  have hfparams : f.params = po.getD ['(', ')'] := by rw [← h]
  rcases ro with _ | r
  · have hfsig2 : f.signature = funcL ++ ' ' :: c ::
        (w ++ '(' :: (inn ++ ')' :: (if tl = [] then [] else ' ' :: tl))) := by
      rw [hfsig, hnm, hparams]
      simp [List.append_assoc]
    obtain ⟨f2, hf2, hn2, hr2, hp2⟩ := parse_function_of_funcMatch
      (funcMatch_canon_norecv c w inn (if tl = [] then [] else ' ' :: tl)
        hc hw hwall hinn)
    refine ⟨f2, ?_, ?_, ?_, ?_⟩
    · rw [hfsig2]
      exact hf2
    · rw [hn2, hfname, hnm]
    · rw [hr2, hfrecv]
    · rw [hp2, hfparams, hparams]
      simp
  · obtain ⟨hrne, hrall⟩ := hro r rfl
    have hgr : (some r : Option (List Char)).getD [] = r := rfl
    have hfsig2 : f.signature = funcL ++ ' ' :: '(' ::
        (r ++ ')' :: (' ' :: c ::
          (w ++ '(' :: (inn ++ ')' :: (if tl = [] then [] else ' ' :: tl))))) := by
      rw [hfsig, hnm, hparams, hgr]
      rw [if_neg hrne]
      simp [List.append_assoc]
    obtain ⟨f2, hf2, hn2, hr2, hp2⟩ := parse_function_of_funcMatch
      (funcMatch_canon_recv r c w inn (if tl = [] then [] else ' ' :: tl)
        hrne hrall hc hw hwall hinn)
    refine ⟨f2, ?_, ?_, ?_, ?_⟩
    · rw [hfsig2]
      exact hf2
    · rw [hn2, hfname, hnm]
    · rw [hr2, hfrecv]
    · rw [hp2, hfparams, hparams]
      simp

/-- C7 witness at the Scenario A line. -/
theorem c7_witness :
    ∃ f2 : GoFunction, parse_function scenarioARecord.signature = some f2 ∧
      f2.name = scenarioARecord.name ∧ f2.receiver = scenarioARecord.receiver ∧
      f2.params = scenarioARecord.params :=
  c7_signature_roundtrip scenarioALine scenarioARecord (by decide)
